import Mathlib

/-!
Verification development for the semantic index manager of
`backend/semantic/services/semantic_indexer.py` (class `SemanticIndexer`).

The Python class keeps a FAISS `IndexIDMap` vector store, a forward map
`id_map : file_id → vector_id`, an inverse map `reverse_id_map`, and a
counter `next_vector_id`, and persists everything to two disk artifacts
after each mutation.  We embed the state as a Lean structure and each
method as a pure function on it.  Python dicts are embedded as
insertion-ordered association lists with dict update/delete semantics;
the embedding provider (`self.model.encode`) is an explicit function
parameter `embed : String → Vec`; embeddings are rational-valued vectors
so that everything is executable and decidable.
-/

namespace SemanticIndex

/-- Embedding vectors: fixed-length float vectors, modelled over `ℚ`. -/
abbrev Vec := List ℚ

/-- Squared L2 distance between two vectors (FAISS `IndexFlatL2` metric). -/
def sqDist (u v : Vec) : ℚ :=
  (List.zipWith (fun a b => (a - b) * (a - b)) u v).sum

/-- Python `str.strip()`: drop leading and trailing whitespace. -/
def pyStrip (s : String) : String :=
  ⟨((s.data.dropWhile Char.isWhitespace).reverse.dropWhile Char.isWhitespace).reverse⟩

/-- Association-list lookup, first match wins (Python dict `d[k]` / `k in d`). -/
def alookup {α β : Type} [DecidableEq α] (k : α) : List (α × β) → Option β
  | [] => none
  | p :: ps => if p.1 = k then some p.2 else alookup k ps

/-- Python dict assignment `d[k] = v`: update in place when the key is
present, append otherwise (insertion order preserved). -/
def dictInsert {α β : Type} [DecidableEq α] (l : List (α × β)) (k : α) (v : β) :
    List (α × β) :=
  if (alookup k l).isSome then l.map (fun p => if p.1 = k then (k, v) else p)
  else l ++ [(k, v)]

/-- Python dict deletion `del d[k]`: drop the entries keyed `k` (keys are
unique in every reachable dict, so at most one entry is dropped). -/
def dictErase {α β : Type} [DecidableEq α] : List (α × β) → α → List (α × β)
  | [], _ => []
  | p :: ps, k => if p.1 = k then dictErase ps k else p :: dictErase ps k

/-- Python dict comprehension `{k: v for (k, v) in l}`: iterate and assign. -/
def dictOfPairs {α β : Type} [DecidableEq α] (l : List (α × β)) : List (α × β) :=
  l.foldl (fun d p => dictInsert d p.1 p.2) []

/-- Modelled from the spec: the VectorStore component (§4.1).  Its
implementation is the external FAISS library (`faiss.IndexIDMap` over
`faiss.IndexFlatL2`), which is not part of this repository's sources, so
the store is embedded from the spec's description: an exhaustive flat
index of id-tagged vectors. -/
structure Store where
  entries : List (ℤ × Vec)
deriving DecidableEq

/-- `index.ntotal`: current population of the store. -/
def Store.ntotal (s : Store) : ℕ := s.entries.length

/-- Modelled from the spec: `add(vector, id)` associates an id with a vector
(`index.add_with_ids`). -/
def Store.add (s : Store) (v : Vec) (id : ℤ) : Store :=
  ⟨s.entries ++ [(id, v)]⟩

/-- Modelled from the spec: `remove(id)` erases the id's association if
present, tombstone-style, no-op otherwise (`index.remove_ids`). -/
def Store.removeIds (s : Store) (id : ℤ) : Store :=
  ⟨dictErase s.entries id⟩

/-- Ordering of scored search hits by ascending (squared L2) distance. -/
def distLE (a b : ℤ × ℚ) : Prop := a.2 ≤ b.2

instance : DecidableRel distLE := fun a b => inferInstanceAs (Decidable (a.2 ≤ b.2))

instance : IsTotal (ℤ × ℚ) distLE := ⟨fun a b => le_total a.2 b.2⟩

instance : IsTrans (ℤ × ℚ) distLE := ⟨fun _ _ _ h h' => le_trans h h'⟩

/-- Modelled from the spec: `search(query_vector, k)` of the flat store
returns up to `k` `(id, distance)` pairs ordered by ascending L2 distance;
a fixed-width result buffer is padded with the sentinel id `-1` when fewer
than `k` vectors exist (FAISS returns `-1` for invalid/missing hits). -/
def Store.search (s : Store) (q : Vec) (k : ℕ) : List (ℤ × ℚ) :=
  let scored := s.entries.map (fun e => (e.1, sqDist e.2 q))
  let sorted := List.insertionSort distLE scored
  let top := sorted.take k
  top ++ List.replicate (k - top.length) (-1, 0)

/-- The pickled metadata artifact: either the legacy flat list of file ids
(position = vector id) or the current `{id_map, reverse_id_map,
next_vector_id}` dictionary. -/
inductive MetaFormat where
  | legacy (docs : List String)
  | current (id_map : List (String × ℤ)) (reverse_id_map : List (ℤ × String))
      (next_vector_id : ℤ)
deriving DecidableEq

/-- The full `SemanticIndexer` state: in-memory index, both maps, the
counter, plus the two persisted disk artifacts (`index.faiss` file and
metadata pickle). -/
structure IndexerState where
  store : Store
  id_map : List (String × ℤ)
  reverse_id_map : List (ℤ × String)
  next_vector_id : ℤ
  disk_index : Option Store
  disk_meta : Option MetaFormat
deriving DecidableEq

/-- `_save_index` (lines 223-242): write the FAISS index and the metadata,
in the current dict format, to the two disk artifacts. -/
def save_index (st : IndexerState) : IndexerState :=
  { st with
    disk_index := some st.store
    disk_meta := some (.current st.id_map st.reverse_id_map st.next_vector_id) }

/-- `_initialize` (lines 34-80): load or create the index.  When the index
file exists it is read; legacy list metadata is migrated (lines 55-60),
current metadata is taken as is (lines 61-65), and a missing metadata file
yields empty maps and counter 0 (lines 67-71).  When no index file exists a
fresh empty index is created (lines 72-80) and the metadata file is not
consulted. -/
def initFromDisk (disk_index : Option Store) (disk_meta : Option MetaFormat) :
    IndexerState :=
  match disk_index with
  | some s =>
    match disk_meta with
    | some (.legacy docs) =>
      { store := s
        id_map := dictOfPairs (docs.enum.map fun p => (p.2, (p.1 : ℤ)))
        reverse_id_map := dictOfPairs (docs.enum.map fun p => ((p.1 : ℤ), p.2))
        next_vector_id := (docs.length : ℤ)
        disk_index := disk_index, disk_meta := disk_meta }
    | some (.current f r n) =>
      { store := s, id_map := f, reverse_id_map := r, next_vector_id := n
        disk_index := disk_index, disk_meta := disk_meta }
    | none =>
      { store := s, id_map := [], reverse_id_map := [], next_vector_id := 0
        disk_index := disk_index, disk_meta := disk_meta }
  | none =>
    { store := ⟨[]⟩, id_map := [], reverse_id_map := [], next_vector_id := 0
      disk_index := disk_index, disk_meta := disk_meta }

/-- The read `if file_id in self.id_map` (lines 97-101), performed before
the lock is acquired; returns the existing vector id when present. -/
def checkIndexed (st : IndexerState) (file_id : String) : Option ℤ :=
  alookup file_id st.id_map

/-- The embed-allocate-insert-persist sequence of `index_document`
(lines 103-130): embed the stripped text, take `next_vector_id` and bump
the counter, `add_with_ids` into the store, record both map entries, save.
Only the part from line 112 on runs under `index_lock`. -/
def allocInsert (embed : String → Vec) (st : IndexerState)
    (file_id text : String) : ℤ × IndexerState :=
  let embedding := embed (pyStrip text)
  let vector_id := st.next_vector_id
  let st1 : IndexerState :=
    { st with
      next_vector_id := st.next_vector_id + 1
      store := st.store.add embedding vector_id
      id_map := dictInsert st.id_map file_id vector_id
      reverse_id_map := dictInsert st.reverse_id_map vector_id file_id }
  (vector_id, save_index st1)

/-- `index_document` (lines 82-134).  `not text or not text.strip()` is
equivalent to `pyStrip text = ""`.  Returns the vector id on success,
`none` for empty/whitespace-only text. -/
def index_document (embed : String → Vec) (st : IndexerState)
    (file_id text : String) : Option ℤ × IndexerState :=
  if pyStrip text = "" then (none, st)
  else
    match checkIndexed st file_id with
    | some vid => (some vid, st)
    | none =>
      let r := allocInsert embed st file_id text
      (some r.1, r.2)

/-- `search` (lines 136-184): reject blank queries, return `[]` on an
empty (or never-initialized) index, clamp `k = min(k, ntotal)`, return
`[]` when the clamp gives 0, run the store search, and map each hit
through `reverse_id_map`, silently skipping negative sentinel ids and ids
with no reverse entry (lines 169-175).  No state is mutated. -/
def search (embed : String → Vec) (st : IndexerState) (query : String)
    (k : ℤ) : List String :=
  if pyStrip query = "" then []
  else if st.store.ntotal = 0 then []
  else
    let query_embedding := embed (pyStrip query)
    let k1 : ℤ := min k (st.store.ntotal : ℤ)
    if k1 = 0 then []
    else
      (st.store.search query_embedding k1.toNat).filterMap fun p =>
        if 0 ≤ p.1 then alookup p.1 st.reverse_id_map else none

/-- `search`, instrumented to keep each returned hit's distance alongside
the file id (same control flow as `search`, used to state the ordering
property). -/
def search_scored (embed : String → Vec) (st : IndexerState) (query : String)
    (k : ℤ) : List (String × ℚ) :=
  if pyStrip query = "" then []
  else if st.store.ntotal = 0 then []
  else
    let query_embedding := embed (pyStrip query)
    let k1 : ℤ := min k (st.store.ntotal : ℤ)
    if k1 = 0 then []
    else
      (st.store.search query_embedding k1.toNat).filterMap fun p =>
        if 0 ≤ p.1 then (alookup p.1 st.reverse_id_map).map (fun fid => (fid, p.2))
        else none

/-- `remove_document` (lines 186-221): `False` with no change when the id
is unknown; otherwise remove the vector from the store, delete both map
entries, persist, and return `True`. -/
def remove_document (st : IndexerState) (file_id : String) :
    Bool × IndexerState :=
  match alookup file_id st.id_map with
  | none => (false, st)
  | some vector_id =>
    let st1 : IndexerState :=
      { st with
        store := st.store.removeIds vector_id
        id_map := dictErase st.id_map file_id
        reverse_id_map := dictErase st.reverse_id_map vector_id }
    (true, save_index st1)

/-- `index_document` when `_save_index` raises an I/O error: the map and
store mutations (lines 112-124) are already applied, the disk artifacts
are unchanged, and the exception propagates to the caller through the
`except`/`raise` at lines 132-134. -/
def index_document_saveFail (embed : String → Vec) (st : IndexerState)
    (file_id text : String) : Except Unit (Option ℤ) × IndexerState :=
  if pyStrip text = "" then (.ok none, st)
  else
    match checkIndexed st file_id with
    | some vid => (.ok (some vid), st)
    | none =>
      let embedding := embed (pyStrip text)
      let vector_id := st.next_vector_id
      let st1 : IndexerState :=
        { st with
          next_vector_id := st.next_vector_id + 1
          store := st.store.add embedding vector_id
          id_map := dictInsert st.id_map file_id vector_id
          reverse_id_map := dictInsert st.reverse_id_map vector_id file_id }
      (.error (), st1)

/-- `remove_document` when `_save_index` raises an I/O error: the map and
store deletions (lines 205-211) are already applied, the disk artifacts
are unchanged, and the `except` at lines 219-221 reports `False` to the
caller. -/
def remove_document_saveFail (st : IndexerState) (file_id : String) :
    Bool × IndexerState :=
  match alookup file_id st.id_map with
  | none => (false, st)
  | some vector_id =>
    let st1 : IndexerState :=
      { st with
        store := st.store.removeIds vector_id
        id_map := dictErase st.id_map file_id
        reverse_id_map := dictErase st.reverse_id_map vector_id }
    (false, st1)

/-- One public mutating call on the indexer. -/
inductive Op where
  | index (file_id text : String)
  | remove (file_id : String)

/-- Run one call for its state effect. -/
def stepOp (embed : String → Vec) (st : IndexerState) : Op → IndexerState
  | .index f t => (index_document embed st f t).2
  | .remove f => (remove_document st f).2

/-- Run a sequence of calls. -/
def runOps (embed : String → Vec) (st : IndexerState) (ops : List Op) :
    IndexerState :=
  ops.foldl (stepOp embed) st

/-- The vector ids freshly allocated (line 114) along a sequence of calls;
calls that return early (blank text, already indexed) allocate nothing. -/
def allocs (embed : String → Vec) (st : IndexerState) : List Op → List ℤ
  | [] => []
  | o :: os =>
    match o with
    | .index f t =>
      if pyStrip t = "" ∨ (checkIndexed st f).isSome then
        allocs embed (stepOp embed st o) os
      else st.next_vector_id :: allocs embed (stepOp embed st o) os
    | .remove _ => allocs embed (stepOp embed st o) os

/-- The state well-formedness invariant maintained by the indexer: unique
dict keys, equal cardinalities of both maps and the store, the two maps
exact inverses, reverse keys exactly the store's ids, and every reverse
key strictly below the counter. -/
structure WF (st : IndexerState) : Prop where
  fwd_nodup : (st.id_map.map Prod.fst).Nodup
  rev_nodup : (st.reverse_id_map.map Prod.fst).Nodup
  store_nodup : (st.store.entries.map Prod.fst).Nodup
  len_fwd : st.id_map.length = st.reverse_id_map.length
  len_store : st.reverse_id_map.length = st.store.entries.length
  fwd_rev : ∀ fid vid,
    alookup fid st.id_map = some vid ↔ alookup vid st.reverse_id_map = some fid
  rev_store : ∀ vid,
    (alookup vid st.reverse_id_map).isSome ↔ vid ∈ st.store.entries.map Prod.fst
  rev_bound : ∀ vid ∈ st.reverse_id_map.map Prod.fst, vid < st.next_vector_id

/-- A fixed embedding provider used for concrete executions. -/
def embedW : String → Vec := fun _ => [1]

end SemanticIndex
namespace SemanticIndex

theorem alookup_nil {α β : Type} [DecidableEq α] (k : α) :
    alookup (β := β) k [] = none := rfl

theorem alookup_cons {α β : Type} [DecidableEq α] (k : α) (p : α × β)
    (l : List (α × β)) :
    alookup k (p :: l) = if p.1 = k then some p.2 else alookup k l := rfl

theorem alookup_append {α β : Type} [DecidableEq α] (k : α)
    (l₁ l₂ : List (α × β)) :
    alookup k (l₁ ++ l₂) = (alookup k l₁).or (alookup k l₂) := by
  induction l₁ with
  | nil => simp [alookup]
  | cons p ps ih =>
    by_cases h : p.1 = k <;> simp [alookup, h, ih]

theorem alookup_eq_none {α β : Type} [DecidableEq α] (k : α) (l : List (α × β)) :
    alookup k l = none ↔ k ∉ l.map Prod.fst := by
  induction l with
  | nil => simp [alookup]
  | cons p ps ih =>
    rw [alookup_cons]
    by_cases h : p.1 = k
    · subst h
      simp
    · rw [if_neg h]
      simp only [List.map_cons, List.mem_cons]
      rw [ih]
      constructor
      · intro hn hc
        rcases hc with hc | hc
        · exact h hc.symm
        · exact hn hc
      · intro hn hc
        exact hn (Or.inr hc)

theorem alookup_isSome {α β : Type} [DecidableEq α] (k : α) (l : List (α × β)) :
    (alookup k l).isSome ↔ k ∈ l.map Prod.fst := by
  rw [← not_iff_not, ← alookup_eq_none]
  cases alookup k l <;> simp

theorem mem_of_alookup_eq_some {α β : Type} [DecidableEq α] {k : α}
    {l : List (α × β)} {v : β} (h : alookup k l = some v) :
    k ∈ l.map Prod.fst := by
  rw [← alookup_isSome, h]; rfl

theorem dictInsert_absent {α β : Type} [DecidableEq α] {k : α}
    {l : List (α × β)} (h : alookup k l = none) (v : β) :
    dictInsert l k v = l ++ [(k, v)] := by
  simp [dictInsert, h]

theorem alookup_dictErase {α β : Type} [DecidableEq α] (k' k : α)
    (l : List (α × β)) :
    alookup k' (dictErase l k) = if k' = k then none else alookup k' l := by
  induction l with
  | nil => by_cases h : k' = k <;> simp [dictErase, alookup, h]
  | cons p ps ih =>
    rw [dictErase]
    by_cases hpk : p.1 = k
    · rw [if_pos hpk, ih, alookup_cons]
      by_cases h' : k' = k
      · rw [if_pos h', if_pos h']
      · have hp' : p.1 ≠ k' := by
          rw [hpk]
          exact fun hc => h' hc.symm
        rw [if_neg h', if_neg h', if_neg hp']
    · rw [if_neg hpk, alookup_cons, alookup_cons]
      by_cases hpk' : p.1 = k'
      · rw [if_pos hpk', if_pos hpk']
        have h' : ¬k' = k := fun hc => hpk (hpk'.trans hc)
        rw [if_neg h']
      · rw [if_neg hpk', if_neg hpk', ih]

theorem map_fst_dictErase {α β : Type} [DecidableEq α] (k : α)
    (l : List (α × β)) :
    List.Sublist ((dictErase l k).map Prod.fst) (l.map Prod.fst) := by
  induction l with
  | nil => simp [dictErase]
  | cons p ps ih =>
    rw [dictErase]
    by_cases h : p.1 = k
    · rw [if_pos h, List.map_cons]
      exact ih.trans (List.sublist_cons_self _ _)
    · rw [if_neg h, List.map_cons, List.map_cons]
      exact ih.cons₂ _

theorem nodup_keys_dictErase {α β : Type} [DecidableEq α] (k : α)
    {l : List (α × β)} (h : (l.map Prod.fst).Nodup) :
    ((dictErase l k).map Prod.fst).Nodup :=
  h.sublist (map_fst_dictErase k l)

theorem dictErase_of_absent {α β : Type} [DecidableEq α] {k : α}
    {l : List (α × β)} (h : alookup k l = none) :
    dictErase l k = l := by
  induction l with
  | nil => rfl
  | cons p ps ih =>
    rw [alookup_cons] at h
    by_cases hpk : p.1 = k
    · rw [if_pos hpk] at h
      exact absurd h (by simp)
    · rw [if_neg hpk] at h
      rw [dictErase, if_neg hpk, ih h]

theorem length_dictErase {α β : Type} [DecidableEq α] {k : α}
    {l : List (α × β)} {v : β} (hnd : (l.map Prod.fst).Nodup)
    (h : alookup k l = some v) :
    (dictErase l k).length + 1 = l.length := by
  induction l with
  | nil => exact absurd h (by simp [alookup])
  | cons p ps ih =>
    rw [List.map_cons, List.nodup_cons] at hnd
    rw [alookup_cons] at h
    rw [dictErase]
    by_cases hpk : p.1 = k
    · rw [if_pos hpk]
      have hkn : alookup k ps = none := by
        rw [alookup_eq_none]
        exact hpk ▸ hnd.1
      rw [dictErase_of_absent hkn, List.length_cons]
    · rw [if_neg hpk] at h
      rw [if_neg hpk, List.length_cons, List.length_cons, ih hnd.2 h]

theorem mem_keys_dictErase {α β : Type} [DecidableEq α] {x k : α}
    {l : List (α × β)} :
    x ∈ (dictErase l k).map Prod.fst ↔ x ∈ l.map Prod.fst ∧ x ≠ k := by
  induction l with
  | nil => simp [dictErase]
  | cons p ps ih =>
    rw [dictErase]
    by_cases hpk : p.1 = k
    · rw [if_pos hpk, List.map_cons, List.mem_cons, ih]
      constructor
      · intro hx
        exact ⟨Or.inr hx.1, hx.2⟩
      · rintro ⟨hx | hx, hne⟩
        · exact absurd (hx.trans hpk) hne
        · exact ⟨hx, hne⟩
    · rw [if_neg hpk, List.map_cons, List.map_cons, List.mem_cons, List.mem_cons, ih]
      constructor
      · rintro (hx | hx)
        · exact ⟨Or.inl hx, fun hc => hpk (hx ▸ hc : p.1 = k)⟩
        · exact ⟨Or.inr hx.1, hx.2⟩
      · rintro ⟨hx | hx, hne⟩
        · exact Or.inl hx
        · exact Or.inr ⟨hx, hne⟩

end SemanticIndex
namespace SemanticIndex

theorem alookup_singleton {α β : Type} [DecidableEq α] (k a : α) (b : β) :
    alookup k [(a, b)] = if a = k then some b else none := rfl

theorem exists_alookup_of_mem_keys {α β : Type} [DecidableEq α] {k : α}
    {l : List (α × β)} (h : k ∈ l.map Prod.fst) : ∃ v, alookup k l = some v := by
  rw [← alookup_isSome] at h
  exact Option.isSome_iff_exists.mp h

theorem WF_save {st : IndexerState} (h : WF st) : WF (save_index st) :=
  ⟨h.fwd_nodup, h.rev_nodup, h.store_nodup, h.len_fwd, h.len_store,
    h.fwd_rev, h.rev_store, h.rev_bound⟩

theorem WF_allocInsert (embed : String → Vec) (st : IndexerState)
    (fid text : String) (hwf : WF st) (habs : alookup fid st.id_map = none) :
    WF (allocInsert embed st fid text).2 := by
  have hrevabs : alookup st.next_vector_id st.reverse_id_map = none := by
    rw [alookup_eq_none]
    intro hmem
    exact absurd (hwf.rev_bound _ hmem) (lt_irrefl _)
  have hstoreabs : st.next_vector_id ∉ st.store.entries.map Prod.fst := by
    intro hmem
    have := (hwf.rev_store st.next_vector_id).mpr hmem
    rw [hrevabs] at this
    exact absurd this (by simp)
  have hfidabs : fid ∉ st.id_map.map Prod.fst := (alookup_eq_none _ _).mp habs
  have hvidabs : st.next_vector_id ∉ st.reverse_id_map.map Prod.fst :=
    (alookup_eq_none _ _).mp hrevabs
  unfold allocInsert
  apply WF_save
  rw [dictInsert_absent habs, dictInsert_absent hrevabs]
  constructor
  case fwd_nodup =>
    simp only [List.map_append, List.map_cons, List.map_nil]
    rw [List.nodup_append]
    exact ⟨hwf.fwd_nodup, List.nodup_singleton _, by simpa using hfidabs⟩
  case rev_nodup =>
    simp only [List.map_append, List.map_cons, List.map_nil]
    rw [List.nodup_append]
    exact ⟨hwf.rev_nodup, List.nodup_singleton _, by simpa using hvidabs⟩
  case store_nodup =>
    show ((st.store.entries ++ [_]).map Prod.fst).Nodup
    simp only [List.map_append, List.map_cons, List.map_nil]
    rw [List.nodup_append]
    exact ⟨hwf.store_nodup, List.nodup_singleton _, by simpa using hstoreabs⟩
  case len_fwd => simp [hwf.len_fwd]
  case len_store =>
    show _ = (st.store.entries ++ [_]).length
    simp [hwf.len_store]
  case fwd_rev =>
    intro f' v'
    rw [alookup_append, alookup_append, alookup_singleton, alookup_singleton]
    cases hf : alookup f' st.id_map with
    | some w =>
      have hr : alookup w st.reverse_id_map = some f' := (hwf.fwd_rev f' w).mp hf
      rw [Option.or_some]
      constructor
      · intro he
        cases he
        rw [hr, Option.or_some]
      · intro he
        cases hv : alookup v' st.reverse_id_map with
        | some g =>
          rw [hv, Option.or_some] at he
          cases he
          have := (hwf.fwd_rev f' v').mpr hv
          rw [hf] at this
          cases this
          rfl
        | none =>
          rw [hv, Option.none_or] at he
          by_cases hvv : st.next_vector_id = v'
          · rw [if_pos hvv] at he
            cases he
            rw [habs] at hf
            exact absurd hf (by simp)
          · rw [if_neg hvv] at he
            exact absurd he (by simp)
    | none =>
      rw [Option.none_or]
      by_cases hff : fid = f'
      · constructor
        · intro he
          rw [if_pos hff] at he
          cases he
          rw [hrevabs, Option.none_or, if_pos rfl]
          rw [hff]
        · intro he
          rw [if_pos hff]
          cases hv : alookup v' st.reverse_id_map with
          | some g =>
            rw [hv, Option.or_some] at he
            cases he
            have := (hwf.fwd_rev f' v').mpr hv
            rw [hf] at this
            exact absurd this (by simp)
          | none =>
            rw [hv, Option.none_or] at he
            by_cases hvv : st.next_vector_id = v'
            · rw [hvv]
            · rw [if_neg hvv] at he
              exact absurd he (by simp)
      · rw [if_neg hff]
        constructor
        · intro he
          exact absurd he (by simp)
        · intro he
          cases hv : alookup v' st.reverse_id_map with
          | some g =>
            rw [hv, Option.or_some] at he
            cases he
            have := (hwf.fwd_rev f' v').mpr hv
            rw [hf] at this
            exact absurd this (by simp)
          | none =>
            rw [hv, Option.none_or] at he
            by_cases hvv : st.next_vector_id = v'
            · rw [if_pos hvv] at he
              cases he
              exact absurd rfl hff
            · rw [if_neg hvv] at he
              exact absurd he (by simp)
  case rev_store =>
    intro v'
    show (alookup v' (st.reverse_id_map ++ [_])).isSome ↔
      v' ∈ (st.store.entries ++ [_]).map Prod.fst
    rw [alookup_append, alookup_singleton]
    simp only [List.map_append, List.map_cons, List.map_nil, List.mem_append,
      List.mem_singleton]
    cases hv : alookup v' st.reverse_id_map with
    | some g =>
      rw [Option.or_some]
      simp only [Option.isSome_some, true_iff]
      exact Or.inl ((hwf.rev_store v').mp (by rw [hv]; rfl))
    | none =>
      rw [Option.none_or]
      by_cases hvv : st.next_vector_id = v'
      · rw [if_pos hvv]
        simp [hvv.symm]
      · rw [if_neg hvv]
        simp only [Option.isSome_none, Bool.false_eq_true, false_iff]
        intro hc
        rcases hc with hc | hc
        · have := (hwf.rev_store v').mpr hc
          rw [hv] at this
          exact absurd this (by simp)
        · exact hvv hc.symm
  case rev_bound =>
    intro v' hv'
    show v' < st.next_vector_id + 1
    simp only [List.map_append, List.map_cons, List.map_nil, List.mem_append,
      List.mem_singleton] at hv'
    rcases hv' with hv' | hv'
    · exact lt_trans (hwf.rev_bound _ hv') (by linarith)
    · rw [hv']
      linarith

theorem WF_index_document (embed : String → Vec) (st : IndexerState)
    (fid text : String) (hwf : WF st) :
    WF (index_document embed st fid text).2 := by
  unfold index_document
  by_cases ht : pyStrip text = ""
  · rw [if_pos ht]
    exact hwf
  · rw [if_neg ht]
    cases hchk : checkIndexed st fid with
    | some v => exact hwf
    | none => exact WF_allocInsert embed st fid text hwf hchk

theorem WF_remove_document (st : IndexerState) (fid : String) (hwf : WF st) :
    WF (remove_document st fid).2 := by
  unfold remove_document
  cases hchk : alookup fid st.id_map with
  | none => exact hwf
  | some vid =>
    have hrev : alookup vid st.reverse_id_map = some fid := (hwf.fwd_rev fid vid).mp hchk
    have hvmem : vid ∈ st.store.entries.map Prod.fst :=
      (hwf.rev_store vid).mp (by rw [hrev]; rfl)
    obtain ⟨w, hw⟩ := exists_alookup_of_mem_keys hvmem
    apply WF_save
    constructor
    case fwd_nodup => exact nodup_keys_dictErase _ hwf.fwd_nodup
    case rev_nodup => exact nodup_keys_dictErase _ hwf.rev_nodup
    case store_nodup =>
      show ((dictErase st.store.entries vid).map Prod.fst).Nodup
      exact nodup_keys_dictErase _ hwf.store_nodup
    case len_fwd =>
      show (dictErase st.id_map fid).length = (dictErase st.reverse_id_map vid).length
      have h1 := length_dictErase hwf.fwd_nodup hchk
      have h2 := length_dictErase hwf.rev_nodup hrev
      have h3 := hwf.len_fwd
      omega
    case len_store =>
      show (dictErase st.reverse_id_map vid).length = (dictErase st.store.entries vid).length
      have h2 := length_dictErase hwf.rev_nodup hrev
      have h3 := length_dictErase hwf.store_nodup hw
      have h4 := hwf.len_store
      omega
    case fwd_rev =>
      intro f' v'
      show alookup f' (dictErase st.id_map fid) = some v' ↔
        alookup v' (dictErase st.reverse_id_map vid) = some f'
      rw [alookup_dictErase, alookup_dictErase]
      by_cases hf : f' = fid
      · rw [if_pos hf]
        by_cases hv : v' = vid
        · rw [if_pos hv]
          simp
        · rw [if_neg hv]
          constructor
          · intro he
            exact absurd he (by simp)
          · intro he
            have h2 := (hwf.fwd_rev f' v').mpr he
            rw [hf, hchk] at h2
            cases h2
            exact absurd rfl hv
      · rw [if_neg hf]
        by_cases hv : v' = vid
        · rw [if_pos hv]
          constructor
          · intro he
            have h2 := (hwf.fwd_rev f' v').mp he
            rw [hv, hrev] at h2
            cases h2
            exact absurd rfl hf
          · intro he
            exact absurd he (by simp)
        · rw [if_neg hv]
          exact hwf.fwd_rev f' v'
    case rev_store =>
      intro v'
      show (alookup v' (dictErase st.reverse_id_map vid)).isSome ↔
        v' ∈ (dictErase st.store.entries vid).map Prod.fst
      rw [alookup_dictErase, mem_keys_dictErase]
      by_cases hv : v' = vid
      · rw [if_pos hv]
        simp [hv]
      · rw [if_neg hv]
        rw [hwf.rev_store v']
        simp [hv]
    case rev_bound =>
      intro v' hv'
      show v' < st.next_vector_id
      have hv2 : v' ∈ (dictErase st.reverse_id_map vid).map Prod.fst := hv'
      rw [mem_keys_dictErase] at hv2
      exact hwf.rev_bound _ hv2.1

theorem WF_stepOp (embed : String → Vec) (st : IndexerState) (o : Op)
    (hwf : WF st) : WF (stepOp embed st o) := by
  cases o with
  | index f t => exact WF_index_document embed st f t hwf
  | remove f => exact WF_remove_document st f hwf

theorem WF_runOps (embed : String → Vec) (st : IndexerState) (ops : List Op)
    (hwf : WF st) : WF (runOps embed st ops) := by
  induction ops generalizing st with
  | nil => exact hwf
  | cons o os ih => exact ih _ (WF_stepOp embed st o hwf)

theorem WF_initFromDisk_empty : WF (initFromDisk none none) := by
  constructor <;> simp [initFromDisk, alookup]

end SemanticIndex
namespace SemanticIndex

theorem next_index_document_le (embed : String → Vec) (st : IndexerState)
    (f t : String) :
    st.next_vector_id ≤ (index_document embed st f t).2.next_vector_id := by
  unfold index_document
  by_cases ht : pyStrip t = ""
  · rw [if_pos ht]
  · rw [if_neg ht]
    cases hchk : checkIndexed st f with
    | some v => exact le_refl _
    | none =>
      show st.next_vector_id ≤ (save_index _).next_vector_id
      simp [allocInsert, save_index]

theorem next_index_document_fresh (embed : String → Vec) (st : IndexerState)
    (f t : String) (ht : ¬pyStrip t = "") (hchk : checkIndexed st f = none) :
    (index_document embed st f t).2.next_vector_id = st.next_vector_id + 1 := by
  unfold index_document
  rw [if_neg ht, hchk]
  show (save_index _).next_vector_id = _
  simp [allocInsert, save_index]

theorem next_remove_document (st : IndexerState) (f : String) :
    (remove_document st f).2.next_vector_id = st.next_vector_id := by
  unfold remove_document
  cases hchk : alookup f st.id_map with
  | none => rfl
  | some v =>
    show (save_index _).next_vector_id = _
    simp [save_index]

theorem next_stepOp_le (embed : String → Vec) (st : IndexerState) (o : Op) :
    st.next_vector_id ≤ (stepOp embed st o).next_vector_id := by
  cases o with
  | index f t => exact next_index_document_le embed st f t
  | remove f => exact le_of_eq (next_remove_document st f).symm

theorem next_runOps_le (embed : String → Vec) (st : IndexerState) (ops : List Op) :
    st.next_vector_id ≤ (runOps embed st ops).next_vector_id := by
  induction ops generalizing st with
  | nil => exact le_refl _
  | cons o os ih =>
    exact le_trans (next_stepOp_le embed st o) (ih (stepOp embed st o))

theorem allocs_bounds (embed : String → Vec) (ops : List Op) (st : IndexerState) :
    ∀ vid ∈ allocs embed st ops,
      st.next_vector_id ≤ vid ∧ vid < (runOps embed st ops).next_vector_id := by
  induction ops generalizing st with
  | nil => simp [allocs]
  | cons o os ih =>
    intro vid hvid
    have hrun : runOps embed st (o :: os) = runOps embed (stepOp embed st o) os := rfl
    cases o with
    | remove f =>
      simp only [allocs] at hvid
      have h2 := ih (stepOp embed st (.remove f)) vid hvid
      exact ⟨le_trans (next_stepOp_le embed st _) h2.1, hrun ▸ h2.2⟩
    | index f t =>
      simp only [allocs] at hvid
      by_cases hc : pyStrip t = "" ∨ (checkIndexed st f).isSome
      · rw [if_pos hc] at hvid
        have h2 := ih (stepOp embed st (.index f t)) vid hvid
        exact ⟨le_trans (next_stepOp_le embed st _) h2.1, hrun ▸ h2.2⟩
      · rw [if_neg hc] at hvid
        push_neg at hc
        have hfresh : (stepOp embed st (.index f t)).next_vector_id =
            st.next_vector_id + 1 := by
          apply next_index_document_fresh embed st f t hc.1
          cases h : checkIndexed st f with
          | none => rfl
          | some v => exact absurd (by rw [h]; rfl) hc.2
        rcases List.mem_cons.mp hvid with rfl | hvid'
        · refine ⟨le_refl _, ?_⟩
          have hle := next_runOps_le embed (stepOp embed st (.index f t)) os
          rw [hfresh] at hle
          rw [hrun]
          linarith
        · have h2 := ih (stepOp embed st (.index f t)) vid hvid'
          refine ⟨?_, hrun ▸ h2.2⟩
          have := h2.1
          rw [hfresh] at this
          linarith

theorem allocs_nodup (embed : String → Vec) (ops : List Op) (st : IndexerState) :
    (allocs embed st ops).Nodup := by
  induction ops generalizing st with
  | nil => simp [allocs]
  | cons o os ih =>
    cases o with
    | remove f =>
      simp only [allocs]
      exact ih _
    | index f t =>
      simp only [allocs]
      by_cases hc : pyStrip t = "" ∨ (checkIndexed st f).isSome
      · rw [if_pos hc]
        exact ih _
      · rw [if_neg hc]
        push_neg at hc
        refine List.nodup_cons.mpr ⟨?_, ih _⟩
        intro hmem
        have h2 := (allocs_bounds embed os (stepOp embed st (.index f t))
          st.next_vector_id hmem).1
        have hfresh : (stepOp embed st (.index f t)).next_vector_id =
            st.next_vector_id + 1 := by
          apply next_index_document_fresh embed st f t hc.1
          cases h : checkIndexed st f with
          | none => rfl
          | some v => exact absurd (by rw [h]; rfl) hc.2
        rw [hfresh] at h2
        linarith

end SemanticIndex
namespace SemanticIndex

/-- Claim C1: after every completed `index_document`/`remove_document` call
(for any sequence of calls, in particular on distinct doc ids), the number
of entries in the forward map equals the number of entries in the reverse
map equals the store's population `ntotal`, the two maps are exact
inverses, and each document id appears at most once. -/
theorem C1_maps_inverse_and_sized (embed : String → Vec) (st : IndexerState)
    (hwf : WF st) (ops : List Op) :
    (runOps embed st ops).id_map.length = (runOps embed st ops).reverse_id_map.length ∧
    (runOps embed st ops).reverse_id_map.length = (runOps embed st ops).store.ntotal ∧
    (∀ fid vid, alookup fid (runOps embed st ops).id_map = some vid ↔
      alookup vid (runOps embed st ops).reverse_id_map = some fid) ∧
    ((runOps embed st ops).id_map.map Prod.fst).Nodup := by
  have h := WF_runOps embed st ops hwf
  exact ⟨h.len_fwd, h.len_store, h.fwd_rev, h.fwd_nodup⟩

theorem C1_maps_inverse_and_sized_witness :
    (runOps embedW (initFromDisk none none)
        [Op.index "doc1" "alpha", Op.index "doc2" "beta", Op.remove "doc1"]).id_map.length =
      (runOps embedW (initFromDisk none none)
        [Op.index "doc1" "alpha", Op.index "doc2" "beta", Op.remove "doc1"]).reverse_id_map.length ∧
    (runOps embedW (initFromDisk none none)
        [Op.index "doc1" "alpha", Op.index "doc2" "beta", Op.remove "doc1"]).reverse_id_map.length =
      (runOps embedW (initFromDisk none none)
        [Op.index "doc1" "alpha", Op.index "doc2" "beta", Op.remove "doc1"]).store.ntotal ∧
    (∀ fid vid, alookup fid (runOps embedW (initFromDisk none none)
        [Op.index "doc1" "alpha", Op.index "doc2" "beta", Op.remove "doc1"]).id_map = some vid ↔
      alookup vid (runOps embedW (initFromDisk none none)
        [Op.index "doc1" "alpha", Op.index "doc2" "beta", Op.remove "doc1"]).reverse_id_map = some fid) ∧
    ((runOps embedW (initFromDisk none none)
        [Op.index "doc1" "alpha", Op.index "doc2" "beta", Op.remove "doc1"]).id_map.map Prod.fst).Nodup :=
  C1_maps_inverse_and_sized embedW (initFromDisk none none) WF_initFromDisk_empty
    [Op.index "doc1" "alpha", Op.index "doc2" "beta", Op.remove "doc1"]

/-- Claim C2: `index_document` is idempotent.  For a `doc_id` already in the
forward map and any non-empty text, a second call returns the vector id
allocated by the first call and leaves the entire state unchanged, and the
result does not depend on the embedding provider at all (the provider is
not invoked: the call returns before the `model.encode` at line 105). -/
theorem C2_index_document_idempotent (st : IndexerState) (fid text : String)
    (vid : ℤ) (hmem : alookup fid st.id_map = some vid)
    (htext : pyStrip text ≠ "") (embed embed' : String → Vec) :
    index_document embed st fid text = (some vid, st) ∧
    index_document embed st fid text = index_document embed' st fid text := by
  unfold index_document checkIndexed
  rw [if_neg htext, if_neg htext, hmem]
  exact ⟨rfl, rfl⟩

theorem C2_index_document_idempotent_witness :
    index_document embedW (runOps embedW (initFromDisk none none) [Op.index "doc1" "alpha"])
        "doc1" "totally different text" =
      (some 0, runOps embedW (initFromDisk none none) [Op.index "doc1" "alpha"]) ∧
    index_document embedW (runOps embedW (initFromDisk none none) [Op.index "doc1" "alpha"])
        "doc1" "totally different text" =
      index_document (fun _ => [2]) (runOps embedW (initFromDisk none none) [Op.index "doc1" "alpha"])
        "doc1" "totally different text" :=
  C2_index_document_idempotent
    (runOps embedW (initFromDisk none none) [Op.index "doc1" "alpha"]) "doc1"
    "totally different text" 0 (by decide) (by decide) embedW (fun _ => [2])

/-- Claim C5: validation failures are rejected before any state change and
reported without raising.  Empty or whitespace-only text makes
`index_document` return the no-op result `(none, st)` with the state (maps,
store, disk artifacts) untouched; a blank query makes `search` return `[]`;
a non-positive `k` makes `search` return `[]` (for `k = 0` via the
`if k == 0` guard at line 165, for `k < 0` because the clamped store query
produces no hits in the spec's store, §4.1).  `search` never mutates state
(its embedding returns only the result list). -/
theorem C5_validation_rejected (embed : String → Vec) (st : IndexerState)
    (fid text query : String) (k : ℤ) :
    (pyStrip text = "" → index_document embed st fid text = (none, st)) ∧
    (pyStrip query = "" → search embed st query k = []) ∧
    (k ≤ 0 → search embed st query k = []) := by
  refine ⟨fun ht => ?_, fun hq => ?_, fun hk => ?_⟩
  · unfold index_document
    rw [if_pos ht]
  · unfold search
    rw [if_pos hq]
  · by_cases hq : pyStrip query = ""
    · unfold search
      rw [if_pos hq]
    · by_cases hn : st.store.ntotal = 0
      · unfold search
        rw [if_neg hq, if_pos hn]
      · have hpos : 0 < (st.store.ntotal : ℤ) := by
          exact_mod_cast Nat.pos_of_ne_zero hn
        have hmin : min k (st.store.ntotal : ℤ) = k := min_eq_left (by linarith)
        by_cases hk0 : k = 0
        · simp [search, hq, hn, hmin, hk0]
        · have hkt : k.toNat = 0 := by omega
          simp [search, hq, hn, hmin, hk0, hkt, Store.search]

theorem C5_validation_rejected_witness :
    (pyStrip "   " = "" → index_document embedW
      (runOps embedW (initFromDisk none none) [Op.index "doc1" "alpha"]) "doc2" "   " =
        (none, runOps embedW (initFromDisk none none) [Op.index "doc1" "alpha"])) ∧
    (pyStrip " " = "" → search embedW
      (runOps embedW (initFromDisk none none) [Op.index "doc1" "alpha"]) " " 5 = []) ∧
    ((-2 : ℤ) ≤ 0 → search embedW
      (runOps embedW (initFromDisk none none) [Op.index "doc1" "alpha"]) " " (-2) = []) :=
  C5_validation_rejected embedW
    (runOps embedW (initFromDisk none none) [Op.index "doc1" "alpha"]) "doc2" "   " " " (-2)

/-- Claim C6: `remove_document` returns `true` iff the doc id is in the
forward map; when found it deletes the entry from both maps and the store
and persists the new state to both disk artifacts; when never indexed it
returns `false` and changes nothing (maps, store, and persisted artifacts
all unchanged, since the whole state is returned as is). -/
theorem C6_remove_document_contract (st : IndexerState) (fid : String) :
    ((remove_document st fid).1 = true ↔ (alookup fid st.id_map).isSome) ∧
    (alookup fid st.id_map = none → remove_document st fid = (false, st)) ∧
    (∀ vid, alookup fid st.id_map = some vid →
      (remove_document st fid).1 = true ∧
      (remove_document st fid).2.id_map = dictErase st.id_map fid ∧
      (remove_document st fid).2.reverse_id_map = dictErase st.reverse_id_map vid ∧
      (remove_document st fid).2.store = st.store.removeIds vid ∧
      alookup fid (remove_document st fid).2.id_map = none ∧
      (remove_document st fid).2.disk_index = some (st.store.removeIds vid) ∧
      (remove_document st fid).2.disk_meta = some
        (MetaFormat.current (dictErase st.id_map fid) (dictErase st.reverse_id_map vid)
          st.next_vector_id)) := by
  refine ⟨?_, fun h => ?_, fun vid h => ?_⟩
  · unfold remove_document
    cases h : alookup fid st.id_map with
    | none => simp [h]
    | some v => simp [h]
  · unfold remove_document
    rw [h]
  · unfold remove_document
    rw [h]
    refine ⟨rfl, rfl, rfl, rfl, ?_, rfl, rfl⟩
    show alookup fid (dictErase st.id_map fid) = none
    rw [alookup_dictErase, if_pos rfl]

theorem C6_remove_document_contract_witness :
    ((remove_document (runOps embedW (initFromDisk none none) [Op.index "doc1" "alpha"])
        "doc1").1 = true ↔
      (alookup "doc1" (runOps embedW (initFromDisk none none)
        [Op.index "doc1" "alpha"]).id_map).isSome) ∧
    (alookup "doc1" (runOps embedW (initFromDisk none none)
        [Op.index "doc1" "alpha"]).id_map = none →
      remove_document (runOps embedW (initFromDisk none none) [Op.index "doc1" "alpha"])
          "doc1" =
        (false, runOps embedW (initFromDisk none none) [Op.index "doc1" "alpha"])) ∧
    (∀ vid, alookup "doc1" (runOps embedW (initFromDisk none none)
        [Op.index "doc1" "alpha"]).id_map = some vid →
      (remove_document (runOps embedW (initFromDisk none none) [Op.index "doc1" "alpha"])
          "doc1").1 = true ∧
      (remove_document (runOps embedW (initFromDisk none none) [Op.index "doc1" "alpha"])
          "doc1").2.id_map =
        dictErase (runOps embedW (initFromDisk none none)
          [Op.index "doc1" "alpha"]).id_map "doc1" ∧
      (remove_document (runOps embedW (initFromDisk none none) [Op.index "doc1" "alpha"])
          "doc1").2.reverse_id_map =
        dictErase (runOps embedW (initFromDisk none none)
          [Op.index "doc1" "alpha"]).reverse_id_map vid ∧
      (remove_document (runOps embedW (initFromDisk none none) [Op.index "doc1" "alpha"])
          "doc1").2.store =
        (runOps embedW (initFromDisk none none)
          [Op.index "doc1" "alpha"]).store.removeIds vid ∧
      alookup "doc1" (remove_document (runOps embedW (initFromDisk none none)
        [Op.index "doc1" "alpha"]) "doc1").2.id_map = none ∧
      (remove_document (runOps embedW (initFromDisk none none) [Op.index "doc1" "alpha"])
          "doc1").2.disk_index =
        some ((runOps embedW (initFromDisk none none)
          [Op.index "doc1" "alpha"]).store.removeIds vid) ∧
      (remove_document (runOps embedW (initFromDisk none none) [Op.index "doc1" "alpha"])
          "doc1").2.disk_meta = some
        (MetaFormat.current
          (dictErase (runOps embedW (initFromDisk none none)
            [Op.index "doc1" "alpha"]).id_map "doc1")
          (dictErase (runOps embedW (initFromDisk none none)
            [Op.index "doc1" "alpha"]).reverse_id_map vid)
          (runOps embedW (initFromDisk none none)
            [Op.index "doc1" "alpha"]).next_vector_id)) :=
  C6_remove_document_contract
    (runOps embedW (initFromDisk none none) [Op.index "doc1" "alpha"]) "doc1"

end SemanticIndex
namespace SemanticIndex

/-- Claim C8: `next_vector_id` is strictly greater than every vector id
ever allocated and never decreases across any sequence of
`index_document`/`remove_document` calls; allocated ids are pairwise
distinct and at least the starting counter, so a vector id is never reused
after its document is removed; across a restart, loading metadata persisted
in the current format restores the saved counter. -/
theorem C8_next_vector_id_monotone (embed : String → Vec) (st : IndexerState)
    (hwf : WF st) (ops : List Op) :
    st.next_vector_id ≤ (runOps embed st ops).next_vector_id ∧
    (∀ vid ∈ allocs embed st ops,
      st.next_vector_id ≤ vid ∧ vid < (runOps embed st ops).next_vector_id) ∧
    (allocs embed st ops).Nodup ∧
    (∀ vid ∈ (runOps embed st ops).reverse_id_map.map Prod.fst,
      vid < (runOps embed st ops).next_vector_id) ∧
    (∀ (s : Store) (f : List (String × ℤ)) (r : List (ℤ × String)) (n : ℤ),
      (initFromDisk (some s) (some (MetaFormat.current f r n))).next_vector_id = n) :=
  ⟨next_runOps_le embed st ops, allocs_bounds embed ops st, allocs_nodup embed ops st,
    (WF_runOps embed st ops hwf).rev_bound, fun _ _ _ _ => rfl⟩

theorem C8_next_vector_id_monotone_witness :
    (initFromDisk none none).next_vector_id ≤
      (runOps embedW (initFromDisk none none)
        [Op.index "doc1" "alpha", Op.remove "doc1", Op.index "doc2" "beta"]).next_vector_id ∧
    (∀ vid ∈ allocs embedW (initFromDisk none none)
        [Op.index "doc1" "alpha", Op.remove "doc1", Op.index "doc2" "beta"],
      (initFromDisk none none).next_vector_id ≤ vid ∧
      vid < (runOps embedW (initFromDisk none none)
        [Op.index "doc1" "alpha", Op.remove "doc1", Op.index "doc2" "beta"]).next_vector_id) ∧
    (allocs embedW (initFromDisk none none)
      [Op.index "doc1" "alpha", Op.remove "doc1", Op.index "doc2" "beta"]).Nodup ∧
    (∀ vid ∈ (runOps embedW (initFromDisk none none)
        [Op.index "doc1" "alpha", Op.remove "doc1", Op.index "doc2" "beta"]).reverse_id_map.map
          Prod.fst,
      vid < (runOps embedW (initFromDisk none none)
        [Op.index "doc1" "alpha", Op.remove "doc1", Op.index "doc2" "beta"]).next_vector_id) ∧
    (∀ (s : Store) (f : List (String × ℤ)) (r : List (ℤ × String)) (n : ℤ),
      (initFromDisk (some s) (some (MetaFormat.current f r n))).next_vector_id = n) :=
  C8_next_vector_id_monotone embedW (initFromDisk none none) WF_initFromDisk_empty
    [Op.index "doc1" "alpha", Op.remove "doc1", Op.index "doc2" "beta"]

/-- Claim C9: when the persistence write raises an I/O error during
`index_document` or `remove_document`, the failure is reported to the
caller (an exception re-raised at line 134, a `False` return at line 221
respectively) while the in-memory mutation — both maps, the store and the
counter — is exactly the one the successful call would have produced and
is not rolled back; only the disk artifacts are left untouched. -/
theorem C9_save_failure_keeps_mutation (embed : String → Vec)
    (st : IndexerState) (fid text : String) :
    (pyStrip text ≠ "" → alookup fid st.id_map = none →
      (index_document_saveFail embed st fid text).1 = Except.error () ∧
      (index_document_saveFail embed st fid text).2.id_map =
        (index_document embed st fid text).2.id_map ∧
      (index_document_saveFail embed st fid text).2.reverse_id_map =
        (index_document embed st fid text).2.reverse_id_map ∧
      (index_document_saveFail embed st fid text).2.store =
        (index_document embed st fid text).2.store ∧
      (index_document_saveFail embed st fid text).2.next_vector_id =
        (index_document embed st fid text).2.next_vector_id ∧
      (index_document_saveFail embed st fid text).2.disk_index = st.disk_index ∧
      (index_document_saveFail embed st fid text).2.disk_meta = st.disk_meta) ∧
    (∀ vid, alookup fid st.id_map = some vid →
      (remove_document_saveFail st fid).1 = false ∧
      (remove_document_saveFail st fid).2.id_map =
        (remove_document st fid).2.id_map ∧
      (remove_document_saveFail st fid).2.reverse_id_map =
        (remove_document st fid).2.reverse_id_map ∧
      (remove_document_saveFail st fid).2.store = (remove_document st fid).2.store ∧
      (remove_document_saveFail st fid).2.disk_index = st.disk_index ∧
      (remove_document_saveFail st fid).2.disk_meta = st.disk_meta) := by
  constructor
  · intro ht habs
    unfold index_document_saveFail index_document checkIndexed
    rw [if_neg ht, if_neg ht, habs]
    exact ⟨rfl, rfl, rfl, rfl, rfl, rfl, rfl⟩
  · intro vid h
    unfold remove_document_saveFail remove_document
    rw [h]
    exact ⟨rfl, rfl, rfl, rfl, rfl, rfl⟩

theorem C9_save_failure_keeps_mutation_witness :
    (pyStrip "alpha" ≠ "" → alookup "doc2" (runOps embedW (initFromDisk none none)
        [Op.index "doc1" "alpha"]).id_map = none →
      (index_document_saveFail embedW (runOps embedW (initFromDisk none none)
        [Op.index "doc1" "alpha"]) "doc2" "alpha").1 = Except.error () ∧
      (index_document_saveFail embedW (runOps embedW (initFromDisk none none)
        [Op.index "doc1" "alpha"]) "doc2" "alpha").2.id_map =
        (index_document embedW (runOps embedW (initFromDisk none none)
          [Op.index "doc1" "alpha"]) "doc2" "alpha").2.id_map ∧
      (index_document_saveFail embedW (runOps embedW (initFromDisk none none)
        [Op.index "doc1" "alpha"]) "doc2" "alpha").2.reverse_id_map =
        (index_document embedW (runOps embedW (initFromDisk none none)
          [Op.index "doc1" "alpha"]) "doc2" "alpha").2.reverse_id_map ∧
      (index_document_saveFail embedW (runOps embedW (initFromDisk none none)
        [Op.index "doc1" "alpha"]) "doc2" "alpha").2.store =
        (index_document embedW (runOps embedW (initFromDisk none none)
          [Op.index "doc1" "alpha"]) "doc2" "alpha").2.store ∧
      (index_document_saveFail embedW (runOps embedW (initFromDisk none none)
        [Op.index "doc1" "alpha"]) "doc2" "alpha").2.next_vector_id =
        (index_document embedW (runOps embedW (initFromDisk none none)
          [Op.index "doc1" "alpha"]) "doc2" "alpha").2.next_vector_id ∧
      (index_document_saveFail embedW (runOps embedW (initFromDisk none none)
        [Op.index "doc1" "alpha"]) "doc2" "alpha").2.disk_index =
        (runOps embedW (initFromDisk none none) [Op.index "doc1" "alpha"]).disk_index ∧
      (index_document_saveFail embedW (runOps embedW (initFromDisk none none)
        [Op.index "doc1" "alpha"]) "doc2" "alpha").2.disk_meta =
        (runOps embedW (initFromDisk none none) [Op.index "doc1" "alpha"]).disk_meta) ∧
    (∀ vid, alookup "doc2" (runOps embedW (initFromDisk none none)
        [Op.index "doc1" "alpha"]).id_map = some vid →
      (remove_document_saveFail (runOps embedW (initFromDisk none none)
        [Op.index "doc1" "alpha"]) "doc2").1 = false ∧
      (remove_document_saveFail (runOps embedW (initFromDisk none none)
        [Op.index "doc1" "alpha"]) "doc2").2.id_map =
        (remove_document (runOps embedW (initFromDisk none none)
          [Op.index "doc1" "alpha"]) "doc2").2.id_map ∧
      (remove_document_saveFail (runOps embedW (initFromDisk none none)
        [Op.index "doc1" "alpha"]) "doc2").2.reverse_id_map =
        (remove_document (runOps embedW (initFromDisk none none)
          [Op.index "doc1" "alpha"]) "doc2").2.reverse_id_map ∧
      (remove_document_saveFail (runOps embedW (initFromDisk none none)
        [Op.index "doc1" "alpha"]) "doc2").2.store =
        (remove_document (runOps embedW (initFromDisk none none)
          [Op.index "doc1" "alpha"]) "doc2").2.store ∧
      (remove_document_saveFail (runOps embedW (initFromDisk none none)
        [Op.index "doc1" "alpha"]) "doc2").2.disk_index =
        (runOps embedW (initFromDisk none none) [Op.index "doc1" "alpha"]).disk_index ∧
      (remove_document_saveFail (runOps embedW (initFromDisk none none)
        [Op.index "doc1" "alpha"]) "doc2").2.disk_meta =
        (runOps embedW (initFromDisk none none) [Op.index "doc1" "alpha"]).disk_meta) :=
  C9_save_failure_keeps_mutation embedW
    (runOps embedW (initFromDisk none none) [Op.index "doc1" "alpha"]) "doc2" "alpha"

/-- Claim C3 is about the code, and fails on it: in `index_document` the
"already indexed" membership check (line 98) runs before `index_lock` is
acquired (line 112), so the check and the allocate-insert do not form one
atomic critical section.  This theorem exhibits the interleaving: two
calls for the same `doc_id` on the same starting state both pass the
check (`checkIndexed` returns `none` for both, lines 97-101), then each
executes the locked section (`allocInsert`, lines 112-127) in turn; both
succeed, allocating the distinct vector ids 0 and 1, and the resulting
state violates the C1 invariant (forward map has 1 entry, reverse map 2,
store population 2). -/
theorem C3_check_outside_lock_race :
    checkIndexed (initFromDisk none none) "doc" = none ∧
    (allocInsert embedW (initFromDisk none none) "doc" "text").1 = 0 ∧
    (allocInsert embedW (allocInsert embedW (initFromDisk none none)
      "doc" "text").2 "doc" "text").1 = 1 ∧
    (allocInsert embedW (allocInsert embedW (initFromDisk none none)
      "doc" "text").2 "doc" "text").2.id_map.length = 1 ∧
    (allocInsert embedW (allocInsert embedW (initFromDisk none none)
      "doc" "text").2 "doc" "text").2.reverse_id_map.length = 2 ∧
    (allocInsert embedW (allocInsert embedW (initFromDisk none none)
      "doc" "text").2 "doc" "text").2.store.ntotal = 2 := by
  decide

/-- Claim C10: at startup with the vector artifact present and the
metadata artifact missing, `_initialize` (lines 67-71) loads the stored
vectors but resets both maps to empty and the counter to 0; the store's
population then exceeds the forward map's size, every persisted
(nonnegative) vector id is `≥ next_vector_id`, and the next
`index_document` allocates vector id 0, which collides with a persisted
id 0 still in the store (duplicate store ids). -/
theorem C10_missing_metadata_degraded (s : Store) (embed : String → Vec)
    (fid text : String) (hpos : 0 < s.ntotal) (htext : pyStrip text ≠ "") :
    (initFromDisk (some s) none).id_map = [] ∧
    (initFromDisk (some s) none).reverse_id_map = [] ∧
    (initFromDisk (some s) none).next_vector_id = 0 ∧
    (initFromDisk (some s) none).store = s ∧
    (initFromDisk (some s) none).id_map.length < (initFromDisk (some s) none).store.ntotal ∧
    (∀ id ∈ s.entries.map Prod.fst, 0 ≤ id →
      (initFromDisk (some s) none).next_vector_id ≤ id) ∧
    (index_document embed (initFromDisk (some s) none) fid text).1 = some 0 ∧
    (0 ∈ s.entries.map Prod.fst →
      ¬ (((index_document embed (initFromDisk (some s) none) fid text).2.store.entries.map
        Prod.fst).Nodup)) := by
  refine ⟨rfl, rfl, rfl, rfl, hpos, fun id _ h0 => h0, ?_, ?_⟩
  · unfold index_document
    rw [if_neg htext]
    rfl
  · intro h0 hnd
    have hentries : (index_document embed (initFromDisk (some s) none) fid
        text).2.store.entries = s.entries ++ [(0, embed (pyStrip text))] := by
      unfold index_document
      rw [if_neg htext]
      rfl
    rw [hentries] at hnd
    simp only [List.map_append, List.map_cons, List.map_nil] at hnd
    rw [List.nodup_append] at hnd
    exact hnd.2.2 h0 (List.mem_singleton.mpr rfl)

theorem C10_missing_metadata_degraded_witness :
    (initFromDisk (some ⟨[((0 : ℤ), ([1] : Vec))]⟩) none).id_map = [] ∧
    (initFromDisk (some ⟨[((0 : ℤ), ([1] : Vec))]⟩) none).reverse_id_map = [] ∧
    (initFromDisk (some ⟨[((0 : ℤ), ([1] : Vec))]⟩) none).next_vector_id = 0 ∧
    (initFromDisk (some ⟨[((0 : ℤ), ([1] : Vec))]⟩) none).store = ⟨[((0 : ℤ), ([1] : Vec))]⟩ ∧
    (initFromDisk (some ⟨[((0 : ℤ), ([1] : Vec))]⟩) none).id_map.length <
      (initFromDisk (some ⟨[((0 : ℤ), ([1] : Vec))]⟩) none).store.ntotal ∧
    (∀ id ∈ (Store.mk [((0 : ℤ), ([1] : Vec))]).entries.map Prod.fst, 0 ≤ id →
      (initFromDisk (some ⟨[((0 : ℤ), ([1] : Vec))]⟩) none).next_vector_id ≤ id) ∧
    (index_document embedW (initFromDisk (some ⟨[((0 : ℤ), ([1] : Vec))]⟩) none)
      "doc1" "alpha").1 = some 0 ∧
    ((0 : ℤ) ∈ (Store.mk [((0 : ℤ), ([1] : Vec))]).entries.map Prod.fst →
      ¬ (((index_document embedW (initFromDisk (some ⟨[((0 : ℤ), ([1] : Vec))]⟩) none)
        "doc1" "alpha").2.store.entries.map Prod.fst).Nodup)) :=
  C10_missing_metadata_degraded ⟨[((0 : ℤ), ([1] : Vec))]⟩ embedW "doc1" "alpha"
    (by decide) (by decide)

end SemanticIndex
namespace SemanticIndex

theorem store_search_length (s : Store) (q : Vec) (k : ℕ) :
    (s.search q k).length = k := by
  show ((List.insertionSort distLE (s.entries.map fun e : ℤ × Vec => (e.1, sqDist e.2 q))).take k ++
    List.replicate
      (k - ((List.insertionSort distLE (s.entries.map fun e : ℤ × Vec => (e.1, sqDist e.2 q))).take k).length)
      (-1, 0)).length = k
  rw [List.length_append, List.length_take, List.length_replicate]
  have h1 : min k (List.insertionSort distLE
      (s.entries.map fun e : ℤ × Vec => (e.1, sqDist e.2 q))).length ≤ k := min_le_left _ _
  omega

theorem store_search_eq_take (s : Store) (q : Vec) (k : ℕ) (hk : k ≤ s.ntotal) :
    s.search q k =
      (List.insertionSort distLE (s.entries.map fun e : ℤ × Vec => (e.1, sqDist e.2 q))).take k := by
  have hlen : (List.insertionSort distLE
      (s.entries.map fun e : ℤ × Vec => (e.1, sqDist e.2 q))).length = s.ntotal := by
    rw [(List.perm_insertionSort distLE _).length_eq, List.length_map]
    rfl
  have htake : ((List.insertionSort distLE
      (s.entries.map fun e : ℤ × Vec => (e.1, sqDist e.2 q))).take k).length = k := by
    rw [List.length_take, hlen]
    exact min_eq_left hk
  show (List.insertionSort distLE (s.entries.map fun e : ℤ × Vec => (e.1, sqDist e.2 q))).take k ++
    List.replicate
      (k - ((List.insertionSort distLE (s.entries.map fun e : ℤ × Vec => (e.1, sqDist e.2 q))).take k).length)
      (-1, 0) = _
  rw [htake, Nat.sub_self, List.replicate_zero, List.append_nil]

theorem map_snd_filterMap_sublist {γ : Type} (g : ℤ × ℚ → Option (γ × ℚ))
    (l : List (ℤ × ℚ)) (hg : ∀ p q, g p = some q → q.2 = p.2) :
    List.Sublist ((l.filterMap g).map Prod.snd) (l.map Prod.snd) := by
  induction l with
  | nil => simp
  | cons p ps ih =>
    rw [List.filterMap_cons]
    cases hgp : g p with
    | none =>
      rw [List.map_cons]
      exact ih.trans (List.sublist_cons_self _ _)
    | some q =>
      rw [List.map_cons, List.map_cons, hg p q hgp]
      exact ih.cons₂ _

theorem search_eq_map_fst_scored (embed : String → Vec) (st : IndexerState)
    (query : String) (k : ℤ) :
    search embed st query k = (search_scored embed st query k).map Prod.fst := by
  by_cases hq : pyStrip query = ""
  · simp [search, search_scored, hq]
  · by_cases hn : st.store.ntotal = 0
    · simp [search, search_scored, hq, hn]
    · by_cases hk1 : min k (st.store.ntotal : ℤ) = 0
      · simp [search, search_scored, hq, hn, hk1]
      · simp only [search, search_scored, hq, hn, hk1, if_false, ite_false]
        rw [List.map_filterMap]
        congr 1
        funext p
        by_cases h0 : 0 ≤ p.1
        · simp only [h0, if_true, ite_true, Option.map_map]
          cases alookup p.1 st.reverse_id_map <;> rfl
        · simp [h0]

theorem search_empty_store (embed : String → Vec) (st : IndexerState)
    (hn : st.store.ntotal = 0) (query : String) (k : ℤ) :
    search embed st query k = [] := by
  by_cases hq : pyStrip query = ""
  · simp [search, hq]
  · simp [search, hq, hn]

theorem search_scored_main (embed : String → Vec) (st : IndexerState)
    (query : String) (k : ℤ) (hq : ¬pyStrip query = "")
    (hn : ¬st.store.ntotal = 0) (hk1 : ¬min k (st.store.ntotal : ℤ) = 0) :
    search_scored embed st query k =
      (st.store.search (embed (pyStrip query))
        (min k (st.store.ntotal : ℤ)).toNat).filterMap
        (fun p => if 0 ≤ p.1 then
          (alookup p.1 st.reverse_id_map).map (fun fid => (fid, p.2)) else none) := by
  simp only [search_scored, hq, hn, hk1, if_false, ite_false]

theorem search_length_le (embed : String → Vec) (st : IndexerState)
    (query : String) (k : ℤ) :
    (search embed st query k).length ≤ k.toNat := by
  by_cases hq : pyStrip query = ""
  · simp [search, hq]
  · by_cases hn : st.store.ntotal = 0
    · simp [search, hq, hn]
    · by_cases hk1 : min k (st.store.ntotal : ℤ) = 0
      · simp [search, hq, hn, hk1]
      · have heq : search embed st query k =
            (st.store.search (embed (pyStrip query))
              (min k (st.store.ntotal : ℤ)).toNat).filterMap
              (fun p => if 0 ≤ p.1 then alookup p.1 st.reverse_id_map else none) := by
          simp only [search, hq, hn, hk1, if_false, ite_false]
        rw [heq]
        refine le_trans (List.length_filterMap_le _ _) ?_
        rw [store_search_length]
        exact Int.toNat_le_toNat (min_le_left _ _)

theorem toNat_min_le_ntotal (st : IndexerState) (k : ℤ) :
    (min k (st.store.ntotal : ℤ)).toNat ≤ st.store.ntotal := by
  have h : min k (st.store.ntotal : ℤ) ≤ (st.store.ntotal : ℤ) := min_le_right _ _
  omega

theorem search_scored_snd_sorted (embed : String → Vec) (st : IndexerState)
    (query : String) (k : ℤ) :
    List.Sorted (fun a b : ℚ => a ≤ b)
      ((search_scored embed st query k).map Prod.snd) := by
  by_cases hq : pyStrip query = ""
  · simp [search_scored, hq]
  · by_cases hn : st.store.ntotal = 0
    · simp [search_scored, hq, hn]
    · by_cases hk1 : min k (st.store.ntotal : ℤ) = 0
      · simp [search_scored, hq, hn, hk1]
      · rw [search_scored_main embed st query k hq hn hk1,
          store_search_eq_take _ _ _ (toNat_min_le_ntotal st k)]
        have hsorted : List.Sorted distLE (List.insertionSort distLE
            (st.store.entries.map fun e => (e.1, sqDist e.2 (embed (pyStrip query))))) :=
          List.sorted_insertionSort distLE _
        have htake : List.Sorted distLE ((List.insertionSort distLE
            (st.store.entries.map fun e =>
              (e.1, sqDist e.2 (embed (pyStrip query))))).take
            (min k (st.store.ntotal : ℤ)).toNat) :=
          List.Pairwise.sublist (List.take_sublist _ _) hsorted
        have htake2 : (((List.insertionSort distLE
            (st.store.entries.map fun e =>
              (e.1, sqDist e.2 (embed (pyStrip query))))).take
            (min k (st.store.ntotal : ℤ)).toNat).map Prod.snd).Pairwise
            (fun a b : ℚ => a ≤ b) :=
          (List.pairwise_map).mpr htake
        refine List.Pairwise.sublist ?_ htake2
        refine map_snd_filterMap_sublist _ _ ?_
        intro p r hpr
        by_cases h0 : 0 ≤ p.1
        · rw [if_pos h0] at hpr
          obtain ⟨fid, _, hfr⟩ := Option.map_eq_some'.mp hpr
          rw [← hfr]
        · rw [if_neg h0] at hpr
          exact absurd hpr (by simp)

theorem search_mem_forward (embed : String → Vec) (st : IndexerState)
    (query : String) (k : ℤ) (hwf : WF st) :
    ∀ fid ∈ search embed st query k, (alookup fid st.id_map).isSome := by
  intro fid hfid
  by_cases hq : pyStrip query = ""
  · simp [search, hq] at hfid
  · by_cases hn : st.store.ntotal = 0
    · simp [search, hq, hn] at hfid
    · by_cases hk1 : min k (st.store.ntotal : ℤ) = 0
      · simp [search, hq, hn, hk1] at hfid
      · have heq : search embed st query k =
            (st.store.search (embed (pyStrip query))
              (min k (st.store.ntotal : ℤ)).toNat).filterMap
              (fun p => if 0 ≤ p.1 then alookup p.1 st.reverse_id_map else none) := by
          simp only [search, hq, hn, hk1, if_false, ite_false]
        rw [heq] at hfid
        obtain ⟨p, _, hgp⟩ := List.mem_filterMap.mp hfid
        by_cases h0 : 0 ≤ p.1
        · rw [if_pos h0] at hgp
          rw [(hwf.fwd_rev fid p.1).mpr hgp]
          rfl
        · rw [if_neg h0] at hgp
          exact absurd hgp (by simp)

theorem search_scored_source (embed : String → Vec) (st : IndexerState)
    (query : String) (k : ℤ) (hwf : WF st) :
    ∀ p ∈ search_scored embed st query k, ∃ e ∈ st.store.entries,
      alookup p.1 st.id_map = some e.1 ∧
      p.2 = sqDist e.2 (embed (pyStrip query)) := by
  intro p hp
  by_cases hq : pyStrip query = ""
  · simp [search_scored, hq] at hp
  · by_cases hn : st.store.ntotal = 0
    · simp [search_scored, hq, hn] at hp
    · by_cases hk1 : min k (st.store.ntotal : ℤ) = 0
      · simp [search_scored, hq, hn, hk1] at hp
      · rw [search_scored_main embed st query k hq hn hk1,
          store_search_eq_take _ _ _ (toNat_min_le_ntotal st k)] at hp
        obtain ⟨a, ha, hga⟩ := List.mem_filterMap.mp hp
        have hamem : a ∈ st.store.entries.map fun e =>
            (e.1, sqDist e.2 (embed (pyStrip query))) :=
          ((List.perm_insertionSort distLE _).mem_iff).mp (List.mem_of_mem_take ha)
        obtain ⟨e, he, hea⟩ := List.mem_map.mp hamem
        by_cases h0 : 0 ≤ a.1
        · rw [if_pos h0] at hga
          obtain ⟨fid, hfid, hfp⟩ := Option.map_eq_some'.mp hga
          refine ⟨e, he, ?_, ?_⟩
          · rw [← hfp]
            show alookup fid st.id_map = some e.1
            have := (hwf.fwd_rev fid a.1).mpr hfid
            rw [← hea] at this
            exact this
          · rw [← hfp]
            show a.2 = sqDist e.2 (embed (pyStrip query))
            rw [← hea]
        · rw [if_neg h0] at hga
          exact absurd hga (by simp)

/-- Claim C4: for every query and every `k`, `search` returns at most `k`
results; every returned id is in the forward map (in particular the store's
sentinel id `-1` and any id without a reverse-map entry are silently
skipped, never surfaced as an error — the result is an ordinary list);
results are ordered by increasing L2 distance to the query embedding
(most similar first), each result's distance being the distance of its
stored vector; and on an empty (or never-populated) store the result is
`[]` for every query and every `k`. -/
theorem C4_search_contract (embed : String → Vec) (st : IndexerState)
    (query : String) (k : ℤ) (hwf : WF st) :
    (search embed st query k).length ≤ k.toNat ∧
    (∀ fid ∈ search embed st query k, (alookup fid st.id_map).isSome) ∧
    search embed st query k = (search_scored embed st query k).map Prod.fst ∧
    List.Sorted (fun a b : ℚ => a ≤ b)
      ((search_scored embed st query k).map Prod.snd) ∧
    (∀ p ∈ search_scored embed st query k, ∃ e ∈ st.store.entries,
      alookup p.1 st.id_map = some e.1 ∧
      p.2 = sqDist e.2 (embed (pyStrip query))) ∧
    (st.store.ntotal = 0 → ∀ (q' : String) (k' : ℤ), search embed st q' k' = []) :=
  ⟨search_length_le embed st query k, search_mem_forward embed st query k hwf,
    search_eq_map_fst_scored embed st query k,
    search_scored_snd_sorted embed st query k,
    search_scored_source embed st query k hwf,
    fun hn q' k' => search_empty_store embed st hn q' k'⟩

theorem C4_search_contract_witness :
    (search embedW (runOps embedW (initFromDisk none none)
      [Op.index "doc1" "alpha", Op.index "doc2" "beta"]) "alpha" 5).length ≤ (5 : ℤ).toNat ∧
    (∀ fid ∈ search embedW (runOps embedW (initFromDisk none none)
        [Op.index "doc1" "alpha", Op.index "doc2" "beta"]) "alpha" 5,
      (alookup fid (runOps embedW (initFromDisk none none)
        [Op.index "doc1" "alpha", Op.index "doc2" "beta"]).id_map).isSome) ∧
    search embedW (runOps embedW (initFromDisk none none)
        [Op.index "doc1" "alpha", Op.index "doc2" "beta"]) "alpha" 5 =
      (search_scored embedW (runOps embedW (initFromDisk none none)
        [Op.index "doc1" "alpha", Op.index "doc2" "beta"]) "alpha" 5).map Prod.fst ∧
    List.Sorted (fun a b : ℚ => a ≤ b)
      ((search_scored embedW (runOps embedW (initFromDisk none none)
        [Op.index "doc1" "alpha", Op.index "doc2" "beta"]) "alpha" 5).map Prod.snd) ∧
    (∀ p ∈ search_scored embedW (runOps embedW (initFromDisk none none)
        [Op.index "doc1" "alpha", Op.index "doc2" "beta"]) "alpha" 5,
      ∃ e ∈ (runOps embedW (initFromDisk none none)
        [Op.index "doc1" "alpha", Op.index "doc2" "beta"]).store.entries,
        alookup p.1 (runOps embedW (initFromDisk none none)
          [Op.index "doc1" "alpha", Op.index "doc2" "beta"]).id_map = some e.1 ∧
        p.2 = sqDist e.2 (embedW (pyStrip "alpha"))) ∧
    ((runOps embedW (initFromDisk none none)
        [Op.index "doc1" "alpha", Op.index "doc2" "beta"]).store.ntotal = 0 →
      ∀ (q' : String) (k' : ℤ), search embedW (runOps embedW (initFromDisk none none)
        [Op.index "doc1" "alpha", Op.index "doc2" "beta"]) q' k' = []) :=
  C4_search_contract embedW
    (runOps embedW (initFromDisk none none)
      [Op.index "doc1" "alpha", Op.index "doc2" "beta"]) "alpha" 5
    (WF_runOps embedW (initFromDisk none none)
      [Op.index "doc1" "alpha", Op.index "doc2" "beta"] WF_initFromDisk_empty)

end SemanticIndex
namespace SemanticIndex

theorem foldl_dictInsert_fresh {α β : Type} [DecidableEq α] (l : List (α × β)) :
    ∀ acc : List (α × β),
      (∀ k ∈ l.map Prod.fst, alookup k acc = none) →
      (l.map Prod.fst).Nodup →
      l.foldl (fun d p => dictInsert d p.1 p.2) acc = acc ++ l := by
  induction l with
  | nil => intro acc _ _; simp
  | cons p ps ih =>
    intro acc hfresh hnd
    rw [List.foldl_cons]
    have h1 : alookup p.1 acc = none := hfresh p.1 (by simp)
    rw [dictInsert_absent h1]
    rw [List.map_cons, List.nodup_cons] at hnd
    have h2 : ∀ k ∈ ps.map Prod.fst, alookup k (acc ++ [(p.1, p.2)]) = none := by
      intro k hk
      rw [alookup_append, hfresh k (by simp [hk]), Option.none_or, alookup_singleton]
      rw [if_neg]
      intro hc
      exact hnd.1 (hc ▸ hk)
    rw [ih (acc ++ [(p.1, p.2)]) h2 hnd.2, List.append_assoc]
    rfl

theorem dictOfPairs_eq_self {α β : Type} [DecidableEq α] (l : List (α × β))
    (hnd : (l.map Prod.fst).Nodup) : dictOfPairs l = l := by
  unfold dictOfPairs
  rw [foldl_dictInsert_fresh l [] (fun k _ => rfl) hnd]
  rfl

theorem enumFrom_map_snd_eq (docs : List String) :
    ∀ s : ℕ, (List.enumFrom s docs).map Prod.snd = docs := by
  induction docs with
  | nil => intro s; rfl
  | cons d ds ih =>
    intro s
    simp only [List.enumFrom, List.map_cons, ih]

theorem enumFrom_int_keys_lb (docs : List String) :
    ∀ s : ℕ, ∀ x ∈ ((List.enumFrom s docs).map fun p => ((p.1 : ℤ), p.2)).map Prod.fst,
      (s : ℤ) ≤ x := by
  induction docs with
  | nil => intro s x hx; simp [List.enumFrom] at hx
  | cons d ds ih =>
    intro s x hx
    simp only [List.enumFrom, List.map_cons, List.mem_cons] at hx
    rcases hx with rfl | hx
    · exact le_refl _
    · have h := ih (s + 1) x hx
      have hc : ((s + 1 : ℕ) : ℤ) = (s : ℤ) + 1 := by push_cast; ring
      rw [hc] at h
      linarith

theorem enumFrom_int_keys_nodup (docs : List String) :
    ∀ s : ℕ, (((List.enumFrom s docs).map fun p => ((p.1 : ℤ), p.2)).map Prod.fst).Nodup := by
  induction docs with
  | nil => intro s; simp [List.enumFrom]
  | cons d ds ih =>
    intro s
    simp only [List.enumFrom, List.map_cons, List.nodup_cons]
    refine ⟨?_, ih (s + 1)⟩
    intro hmem
    have h := enumFrom_int_keys_lb ds (s + 1) _ hmem
    have hc : ((s + 1 : ℕ) : ℤ) = (s : ℤ) + 1 := by push_cast; ring
    rw [hc] at h
    linarith

theorem enumFrom_fwd_keys (docs : List String) (s : ℕ) :
    ((List.enumFrom s docs).map fun p => (p.2, (p.1 : ℤ))).map Prod.fst = docs := by
  rw [List.map_map]
  show (List.enumFrom s docs).map Prod.snd = docs
  exact enumFrom_map_snd_eq docs s

theorem alookup_rev_enumFrom (docs : List String) :
    ∀ (s i : ℕ) (hi : i < docs.length),
      alookup ((s + i : ℕ) : ℤ) ((List.enumFrom s docs).map fun p => ((p.1 : ℤ), p.2)) =
        some (docs.get ⟨i, hi⟩) := by
  induction docs with
  | nil => intro s i hi; exact absurd hi (by simp)
  | cons d ds ih =>
    intro s i hi
    cases i with
    | zero =>
      simp only [List.enumFrom, List.map_cons, alookup_cons]
      rw [if_pos (by norm_num)]
      rfl
    | succ n =>
      have hn : n < ds.length := by simpa using hi
      simp only [List.enumFrom, List.map_cons, alookup_cons]
      rw [if_neg]
      · have h := ih (s + 1) n hn
        rw [show s + (n + 1) = (s + 1) + n by omega]
        exact h
      · intro hc
        have : (s : ℤ) = ((s + (n + 1) : ℕ) : ℤ) := hc
        push_cast at this
        omega

theorem alookup_fwd_enumFrom (docs : List String) (hnd : docs.Nodup) :
    ∀ (s i : ℕ) (hi : i < docs.length),
      alookup (docs.get ⟨i, hi⟩) ((List.enumFrom s docs).map fun p => (p.2, (p.1 : ℤ))) =
        some ((s + i : ℕ) : ℤ) := by
  induction docs with
  | nil => intro s i hi; exact absurd hi (by simp)
  | cons d ds ih =>
    rw [List.nodup_cons] at hnd
    intro s i hi
    cases i with
    | zero =>
      simp only [List.enumFrom, List.map_cons, alookup_cons]
      rw [if_pos (show d = (d :: ds).get ⟨0, hi⟩ from rfl)]
      rfl
    | succ n =>
      have hn : n < ds.length := by simpa using hi
      simp only [List.enumFrom, List.map_cons, alookup_cons]
      rw [if_neg]
      · have h := ih hnd.2 (s + 1) n hn
        rw [show s + (n + 1) = (s + 1) + n by omega]
        exact h
      · intro hc
        have hmem : d ∈ ds := by
          rw [hc]
          show (d :: ds).get ⟨n + 1, hi⟩ ∈ ds
          exact List.get_mem ds n hn
        exact hnd.1 hmem

/-- Claim C7: loading persisted metadata in the legacy flat-list format
`["doc1","doc2","doc3"]` produces the forward map `{doc1:0, doc2:1,
doc3:2}`, the exact inverse reverse map `{0:doc1, 1:doc2, 2:doc3}`, and
counter 3; in general, for a legacy list, every position `i` maps to
vector id `i` in both directions and the counter becomes the list's
length.  The conversion happens only inside `_initialize` (load time):
the last two conjuncts show every mutating call either leaves the
metadata artifact untouched or rewrites it in the current dict format,
so legacy metadata can never be produced (hence never reconverted) while
requests are served. -/
theorem C7_legacy_migration (s : Store) (docs : List String)
    (hnd : docs.Nodup) (i : ℕ) (hi : i < docs.length) :
    (initFromDisk (some s) (some (MetaFormat.legacy ["doc1", "doc2", "doc3"]))).id_map =
      [("doc1", 0), ("doc2", 1), ("doc3", 2)] ∧
    (initFromDisk (some s) (some (MetaFormat.legacy ["doc1", "doc2", "doc3"]))).reverse_id_map =
      [(0, "doc1"), (1, "doc2"), (2, "doc3")] ∧
    (initFromDisk (some s) (some (MetaFormat.legacy ["doc1", "doc2", "doc3"]))).next_vector_id = 3 ∧
    alookup (i : ℤ) (initFromDisk (some s) (some (MetaFormat.legacy docs))).reverse_id_map =
      some (docs.get ⟨i, hi⟩) ∧
    alookup (docs.get ⟨i, hi⟩)
      (initFromDisk (some s) (some (MetaFormat.legacy docs))).id_map = some (i : ℤ) ∧
    (initFromDisk (some s) (some (MetaFormat.legacy docs))).next_vector_id =
      (docs.length : ℤ) ∧
    (∀ (embed : String → Vec) (st : IndexerState) (fid text : String),
      (index_document embed st fid text).2.disk_meta = st.disk_meta ∨
      ∃ f r n, (index_document embed st fid text).2.disk_meta =
        some (MetaFormat.current f r n)) ∧
    (∀ (st : IndexerState) (fid : String),
      (remove_document st fid).2.disk_meta = st.disk_meta ∨
      ∃ f r n, (remove_document st fid).2.disk_meta = some (MetaFormat.current f r n)) := by
  refine ⟨by rfl, by rfl, by rfl, ?_, ?_, rfl, ?_, ?_⟩
  · show alookup (i : ℤ)
      (dictOfPairs ((List.enumFrom 0 docs).map fun p => ((p.1 : ℤ), p.2))) =
      some (docs.get ⟨i, hi⟩)
    rw [dictOfPairs_eq_self _ (enumFrom_int_keys_nodup docs 0)]
    have h := alookup_rev_enumFrom docs 0 i hi
    rw [Nat.zero_add] at h
    exact h
  · show alookup (docs.get ⟨i, hi⟩)
      (dictOfPairs ((List.enumFrom 0 docs).map fun p => (p.2, (p.1 : ℤ)))) =
      some (i : ℤ)
    have hkeys : (((List.enumFrom 0 docs).map fun p => (p.2, (p.1 : ℤ))).map Prod.fst).Nodup := by
      rw [enumFrom_fwd_keys]
      exact hnd
    rw [dictOfPairs_eq_self _ hkeys]
    have h := alookup_fwd_enumFrom docs hnd 0 i hi
    rw [Nat.zero_add] at h
    exact h
  · intro embed st fid text
    unfold index_document
    by_cases ht : pyStrip text = ""
    · rw [if_pos ht]
      exact Or.inl rfl
    · rw [if_neg ht]
      cases hchk : checkIndexed st fid with
      | some v => exact Or.inl rfl
      | none => exact Or.inr ⟨_, _, _, rfl⟩
  · intro st fid
    unfold remove_document
    cases hchk : alookup fid st.id_map with
    | none => exact Or.inl rfl
    | some v => exact Or.inr ⟨_, _, _, rfl⟩

theorem C7_legacy_migration_witness :
    (initFromDisk (some ⟨[]⟩) (some (MetaFormat.legacy ["doc1", "doc2", "doc3"]))).id_map =
      [("doc1", 0), ("doc2", 1), ("doc3", 2)] ∧
    (initFromDisk (some ⟨[]⟩) (some (MetaFormat.legacy ["doc1", "doc2", "doc3"]))).reverse_id_map =
      [(0, "doc1"), (1, "doc2"), (2, "doc3")] ∧
    (initFromDisk (some ⟨[]⟩) (some (MetaFormat.legacy ["doc1", "doc2", "doc3"]))).next_vector_id = 3 ∧
    alookup ((1 : ℕ) : ℤ) (initFromDisk (some ⟨[]⟩)
      (some (MetaFormat.legacy ["doc1", "doc2", "doc3"]))).reverse_id_map =
      some (["doc1", "doc2", "doc3"].get ⟨1, by decide⟩) ∧
    alookup (["doc1", "doc2", "doc3"].get ⟨1, by decide⟩)
      (initFromDisk (some ⟨[]⟩)
        (some (MetaFormat.legacy ["doc1", "doc2", "doc3"]))).id_map = some ((1 : ℕ) : ℤ) ∧
    (initFromDisk (some ⟨[]⟩)
      (some (MetaFormat.legacy ["doc1", "doc2", "doc3"]))).next_vector_id =
      ((["doc1", "doc2", "doc3"] : List String).length : ℤ) ∧
    (∀ (embed : String → Vec) (st : IndexerState) (fid text : String),
      (index_document embed st fid text).2.disk_meta = st.disk_meta ∨
      ∃ f r n, (index_document embed st fid text).2.disk_meta =
        some (MetaFormat.current f r n)) ∧
    (∀ (st : IndexerState) (fid : String),
      (remove_document st fid).2.disk_meta = st.disk_meta ∨
      ∃ f r n, (remove_document st fid).2.disk_meta = some (MetaFormat.current f r n)) :=
  C7_legacy_migration ⟨[]⟩ ["doc1", "doc2", "doc3"] (by decide) 1 (by decide)

end SemanticIndex
